import Mathlib

/-!
Verification development for `sacct-MemoryPerCore.py`.

Shallow embedding conventions:
* A Python `datetime` is modelled as an integer number of seconds since an
  epoch whose day 0 is a Monday (the proleptic Gregorian 0001-01-01, which is
  Python ordinal day 1 and a Monday, so `isoweekday`/`isocalendar` agree).
* A Python `timedelta` is the integer difference in seconds; `.days` is floor
  division by 86400 (`Int.fdiv`) and `.seconds` is the nonnegative remainder
  (`Int.emod`), exactly as `timedelta` normalises.
* `datetime.fromisoformat` failures are modelled by passing `none` for the
  corresponding date argument (a `ValueError` inside the `try` block).
* Exceptions escaping a function are modelled with `Except PyError`.
* `logging` calls are recorded as a list of `LogMsg` tags, one constructor per
  call site (the interpolated message text is not modelled).
-/

/-- Python `datetime.isoweekday()`: Monday = 1 .. Sunday = 7
(day 0 of the embedding's epoch is a Monday). -/
def isoweekday (t : Int) : Int := (t.fdiv 86400).emod 7 + 1

/-- Tags for the `logging` calls in the script, one constructor per call site. -/
inductive LogMsg
  | notValidInput   -- line 25: warning "... are not a valid input"
  | intervalEmpty   -- line 32: info "Interval is empty"
  | tryingCall      -- line 93: debug "Trying to call sacct ..."
  | rangeTooLarge   -- line 99: error "Data range in sacct request too large!"
  | noRange         -- line 102: warning "No data range specified"
  | startReading    -- line 130: info "Start reading SlurmDB into DataFrames"
  | preparingDf     -- line 132: info "Preparing df ..."
  | foundCache      -- line 139: info "Found cached dataframe ..."
  | startBuilding   -- line 143: info "Start building df for week"
  | merging         -- line 194: info "Merging all DataFrames"
  | duplicates      -- line 198: warning "Found duplicate jobs, only keeping the first"
  deriving DecidableEq

/-- The `rrule.WEEKLY` loop of `getWeeksList` (lines 51-57): weekly occurrences
starting at `weekstart` while `≤ day_end`; each window's end is `weekstart + 6
days`, clipped to `day_end` when it would go past it, then extended by
23:59:59 (= 86399 seconds). -/
def rruleWeeks (weekstart day_end : Int) : List (Int × Int) :=
  if h : weekstart ≤ day_end then
    let weekend := weekstart + 6 * 86400
    let weekend2 := if day_end < weekend then day_end else weekend
    (weekstart, weekend2 + 86399) :: rruleWeeks (weekstart + 7 * 86400) day_end
  else []
termination_by (day_end + 1 - weekstart).toNat
decreasing_by omega

/-- Body of `getWeeksList` (lines 22-59) after both dates parsed successfully:
`day_start = ds`, `day_end = de` in seconds. -/
def weeksCore (ds de : Int) : List (Int × Int) × List LogMsg :=
  let td := de - ds
  let daystoprocess := td.fdiv 86400 + 1
  let secondstoprocess := td.emod 86400
  if daystoprocess ≤ 0 then
    ([], [LogMsg.intervalEmpty])
  else if 0 < secondstoprocess ∧ secondstoprocess < 86400 then
    -- line 34: do not assume running for whole days
    ([(ds, de)], [])
  else if daystoprocess < 7 then
    -- line 37: interval shorter than a week, extend end by 23:59:59
    ([(ds, de + 86399)], [])
  else
    -- line 41: first (partial) week until the coming Sunday, then rrule weeks
    let days_until_sunday := 7 - isoweekday ds
    let weekend := ds + days_until_sunday * 86400
    ((ds, weekend + 86399) :: rruleWeeks (weekend + 86400) de, [])

/-- `getWeeksList` (lines 14-59). A `none` date stands for an unparseable ISO
string: the `except ValueError` branch sets `daystoprocess = 0`, logs a
warning, and then the `daystoprocess <= 0` branch also logs "Interval is
empty" and returns no intervals. -/
def getWeeksList (startdate enddate : Option Int) : List (Int × Int) × List LogMsg :=
  match startdate, enddate with
  | some ds, some de => weeksCore ds de
  | _, _ => ([], [LogMsg.notValidInput, LogMsg.intervalEmpty])

/-- `partitions ws lo hi` says the windows `ws` exactly tile the second range
`[lo, hi]` in order: the first window starts at `lo`, each window is nonempty
(start ≤ end), each subsequent window starts one second after the previous one
ends, and the last window ends at `hi`.  This captures "ordered, contiguous,
non-overlapping, union covers the range exactly once". -/
def partitions : List (Int × Int) → Int → Int → Prop
  | [], lo, hi => lo = hi + 1
  | w :: ws, lo, hi => w.1 = lo ∧ w.1 ≤ w.2 ∧ partitions ws (w.2 + 1) hi

theorem partitions_start_le :
    ∀ (ws : List (Int × Int)) (lo hi : Int), partitions ws lo hi →
      ∀ w ∈ ws, lo ≤ w.1 := by
  intro ws
  induction ws with
  | nil => intro lo hi _ w hw; cases hw
  | cons a tl ih =>
    intro lo hi h w hw
    obtain ⟨h1, h2, h3⟩ := h
    rcases List.mem_cons.mp hw with rfl | hw
    · omega
    · have := ih (a.2 + 1) hi h3 w hw
      omega

/-- A list of day-aligned windows that `partitions` a day-aligned range covers
every calendar day of the range exactly once. -/
theorem partitions_day_count :
    ∀ (ws : List (Int × Int)) (lo hi d : Int), partitions ws lo hi →
      (∀ w ∈ ws, (∃ m, w.1 = 86400 * m) ∧ (∃ m, w.2 = 86400 * m + 86399)) →
      lo ≤ 86400 * d → 86400 * d + 86399 ≤ hi →
      ws.countP (fun w => decide (w.1 ≤ 86400 * d ∧ 86400 * d + 86399 ≤ w.2)) = 1 := by
  intro ws
  induction ws with
  | nil =>
    intro lo hi d hp _ hd1 hd2
    simp only [partitions] at hp
    omega
  | cons a tl ih =>
    intro lo hi d hp hal hd1 hd2
    obtain ⟨h1, h2, h3⟩ := hp
    obtain ⟨⟨m1, hm1⟩, ⟨m2, hm2⟩⟩ := hal a (by simp)
    by_cases hc : 86400 * d + 86399 ≤ a.2
    · -- day d is inside the head window; no later window can contain it
      have hd_le : 86400 * d ≤ a.2 := by omega
      rw [List.countP_cons_of_pos]
      · have hzero :
            tl.countP (fun w => decide (w.1 ≤ 86400 * d ∧ 86400 * d + 86399 ≤ w.2)) = 0 := by
          rw [List.countP_eq_zero]
          intro w hw
          have hlo := partitions_start_le tl (a.2 + 1) hi h3 w hw
          simp only [decide_eq_true_eq, not_and]
          intro hcon
          omega
        omega
      · simp only [decide_eq_true_eq]
        exact ⟨by omega, hc⟩
    · -- day d lies strictly after the head window
      have hm : m2 < d := by omega
      have hnext : a.2 + 1 ≤ 86400 * d := by omega
      rw [List.countP_cons_of_neg]
      · exact ih (a.2 + 1) hi d h3 (fun w hw => hal w (by simp [hw])) hnext hd2
      · simp only [decide_eq_true_eq, not_and]
        intro _
        omega

theorem rruleWeeks_pos {ws de : Int} (h : ws ≤ de) :
    rruleWeeks ws de =
      (ws, (if de < ws + 6 * 86400 then de else ws + 6 * 86400) + 86399)
        :: rruleWeeks (ws + 7 * 86400) de := by
  rw [rruleWeeks]
  simp [h]

theorem rruleWeeks_neg {ws de : Int} (h : ¬ ws ≤ de) : rruleWeeks ws de = [] := by
  rw [rruleWeeks]
  simp [h]

/-- Inductive specification of the weekly loop on day-aligned bounds: starting
from a Monday-or-later day `86400 * k` with `k ≤ b`, the produced windows tile
`[86400 * k, 86400 * b + 86399]`, each spans at most 7 calendar days
(including the 23:59:59 extension), starts at a midnight and ends at a
23:59:59 instant. -/
theorem rruleWeeks_spec (n : ℕ) :
    ∀ (k b : Int), k ≤ b → b - k ≤ (n : Int) →
      partitions (rruleWeeks (86400 * k) (86400 * b)) (86400 * k) (86400 * b + 86399) ∧
      ∀ w ∈ rruleWeeks (86400 * k) (86400 * b),
        w.2 - w.1 < 7 * 86400 ∧ (∃ m, w.1 = 86400 * m) ∧ (∃ m, w.2 = 86400 * m + 86399) := by
  induction n using Nat.strong_induction_on with
  | _ n ih =>
    intro k b hkb hn
    rw [rruleWeeks_pos (by omega : (86400 : Int) * k ≤ 86400 * b)]
    by_cases hclip : b < k + 6
    · -- the week would overrun day_end: the window is clipped to day_end and
      -- the loop stops afterwards
      rw [if_pos (by omega : (86400 : Int) * b < 86400 * k + 6 * 86400)]
      rw [rruleWeeks_neg (by omega : ¬ (86400 : Int) * k + 7 * 86400 ≤ 86400 * b)]
      refine ⟨⟨rfl, by omega, by simp only [partitions]⟩, ?_⟩
      intro w hw
      rcases List.mem_cons.mp hw with rfl | hw
      · exact ⟨by omega, ⟨k, rfl⟩, ⟨b, by ring⟩⟩
      · cases hw
    · -- a full Monday-Sunday week fits
      rw [if_neg (by omega : ¬ (86400 : Int) * b < 86400 * k + 6 * 86400)]
      by_cases h7 : k + 7 ≤ b
      · -- more weeks follow: use the induction hypothesis at k + 7
        have harg : (86400 : Int) * k + 7 * 86400 = 86400 * (k + 7) := by ring
        have hmeas : (b - (k + 7)).toNat < n := by omega
        have hrec := ih (b - (k + 7)).toNat hmeas (k + 7) b h7 (by omega)
        rw [harg]
        refine ⟨⟨rfl, by omega, ?_⟩, ?_⟩
        · have e1 : (86400 : Int) * k + 6 * 86400 + 86399 + 1 = 86400 * (k + 7) := by ring
          rw [e1]
          exact hrec.1
        · intro w hw
          rcases List.mem_cons.mp hw with rfl | hw
          · exact ⟨by omega, ⟨k, rfl⟩, ⟨k + 6, by ring⟩⟩
          · exact hrec.2 w hw
      · -- the range ends exactly with this week: b = k + 6
        have hb6 : b = k + 6 := by omega
        rw [rruleWeeks_neg (by omega : ¬ (86400 : Int) * k + 7 * 86400 ≤ 86400 * b)]
        refine ⟨⟨rfl, by omega, by simp only [partitions]; omega⟩, ?_⟩
        intro w hw
        rcases List.mem_cons.mp hw with rfl | hw
        · exact ⟨by omega, ⟨k, rfl⟩, ⟨k + 6, by ring⟩⟩
        · cases hw

/-- Closed form of `weeksCore` on day-aligned (midnight) inputs with
`start ≤ end`: `secondstoprocess` is 0, so either the short-range branch or
the week-loop branch runs. -/
theorem weeksCore_aligned (a b : Int) (hab : a ≤ b) :
    (weeksCore (86400 * a) (86400 * b)).1 =
      if b - a + 1 < 7 then [(86400 * a, 86400 * b + 86399)]
      else (86400 * a, 86400 * (a + 6 - a.emod 7) + 86399)
             :: rruleWeeks (86400 * (a + 7 - a.emod 7)) (86400 * b) := by
  have htd : (86400 : Int) * b - 86400 * a = 86400 * (b - a) := by ring
  have hfdiv : ((86400 : Int) * (b - a)).fdiv 86400 = b - a :=
    Int.mul_fdiv_cancel_left _ (by norm_num)
  have hemod : ((86400 : Int) * (b - a)).emod 86400 = 0 := Int.mul_emod_right _ _
  have hwd : isoweekday (86400 * a) = a.emod 7 + 1 := by
    unfold isoweekday
    rw [Int.mul_fdiv_cancel_left _ (by norm_num : (86400 : Int) ≠ 0)]
  simp only [weeksCore, htd, hfdiv, hemod, hwd]
  rw [if_neg (show ¬ (b - a + 1 ≤ 0) by omega)]
  rw [if_neg (show ¬ ((0 : Int) < 0 ∧ (0 : Int) < 86400) by simp)]
  by_cases h7 : b - a + 1 < 7
  · rw [if_pos h7, if_pos h7]
  · rw [if_neg h7, if_neg h7]
    have e1 : 86400 * a + (7 - (a.emod 7 + 1)) * 86400 + 86399
        = 86400 * (a + 6 - a.emod 7) + 86399 := by ring
    have e2 : 86400 * a + (7 - (a.emod 7 + 1)) * 86400 + 86400
        = 86400 * (a + 7 - a.emod 7) := by ring
    rw [e2, e1]

/-- C1 (amended to calendar-date inputs): for midnight-aligned timestamps
`86400 * a ≤ 86400 * b`, the windows returned by `getWeeksList` tile
`[start, end-of-day(endDate)]` exactly (ordered, contiguous, non-overlapping,
first window starts at `start`, last ends at 23:59:59 of the end date), every
calendar day in `[a, b]` is covered by exactly one window, and no window spans
more than 7 calendar days including the 23:59:59 end-of-day extension. -/
theorem getWeeksList_aligned_partition (a b : Int) (hab : a ≤ b) :
    partitions (getWeeksList (some (86400 * a)) (some (86400 * b))).1
      (86400 * a) (86400 * b + 86399) ∧
    (∀ w ∈ (getWeeksList (some (86400 * a)) (some (86400 * b))).1,
      w.2 - w.1 < 7 * 86400) ∧
    (∀ d : Int, a ≤ d → d ≤ b →
      ((getWeeksList (some (86400 * a)) (some (86400 * b))).1.countP
        (fun w => decide (w.1 ≤ 86400 * d ∧ 86400 * d + 86399 ≤ w.2))) = 1) := by
  have hL : (getWeeksList (some (86400 * a)) (some (86400 * b))).1
      = if b - a + 1 < 7 then [(86400 * a, 86400 * b + 86399)]
        else (86400 * a, 86400 * (a + 6 - a.emod 7) + 86399)
               :: rruleWeeks (86400 * (a + 7 - a.emod 7)) (86400 * b) :=
    weeksCore_aligned a b hab
  have key : partitions (getWeeksList (some (86400 * a)) (some (86400 * b))).1
        (86400 * a) (86400 * b + 86399) ∧
      ∀ w ∈ (getWeeksList (some (86400 * a)) (some (86400 * b))).1,
        w.2 - w.1 < 7 * 86400 ∧ (∃ m, w.1 = 86400 * m) ∧ (∃ m, w.2 = 86400 * m + 86399) := by
    rw [hL]
    have hc0 : (0 : Int) ≤ a.emod 7 := Int.emod_nonneg a (by norm_num)
    have hc1 : a.emod 7 < 7 := Int.emod_lt_of_pos a (by norm_num)
    by_cases h7 : b - a + 1 < 7
    · rw [if_pos h7]
      refine ⟨⟨rfl, by omega, by simp only [partitions]⟩, ?_⟩
      intro w hw
      rcases List.mem_cons.mp hw with rfl | hw
      · exact ⟨by omega, ⟨a, rfl⟩, ⟨b, by ring⟩⟩
      · cases hw
    · rw [if_neg h7]
      by_cases hk : a + 7 - a.emod 7 ≤ b
      · -- further whole weeks follow the first partial week
        have hrec := rruleWeeks_spec (b - (a + 7 - a.emod 7)).toNat
          (a + 7 - a.emod 7) b hk (by omega)
        refine ⟨⟨rfl, by omega, ?_⟩, ?_⟩
        · have e1 : 86400 * (a + 6 - a.emod 7) + 86399 + 1
              = 86400 * (a + 7 - a.emod 7) := by ring
          rw [e1]
          exact hrec.1
        · intro w hw
          rcases List.mem_cons.mp hw with rfl | hw
          · exact ⟨by omega, ⟨a, rfl⟩, ⟨a + 6 - a.emod 7, by ring⟩⟩
          · exact hrec.2 w hw
      · -- the range ends with the first week exactly: b = a + 6 on a Monday
        have hz : a.emod 7 = 0 := by omega
        rw [hz]
        rw [rruleWeeks_neg (by omega : ¬ (86400 : Int) * (a + 7 - 0) ≤ 86400 * b)]
        refine ⟨⟨rfl, by omega, by simp only [partitions]; omega⟩, ?_⟩
        intro w hw
        rcases List.mem_cons.mp hw with rfl | hw
        · exact ⟨by omega, ⟨a, rfl⟩, ⟨a + 6 - 0, by ring⟩⟩
        · cases hw
  exact ⟨key.1, fun w hw => (key.2 w hw).1,
    fun d hd1 hd2 => partitions_day_count _ (86400 * a) (86400 * b + 86399) d key.1
      (fun w hw => (key.2 w hw).2) (by omega) (by omega)⟩

/-- C1 witness: the amended invariant instantiated on the 21-day aligned range
`[day 0, day 20]`. -/
theorem getWeeksList_aligned_partition_witness :
    (0 : Int) ≤ 20 ∧
    (partitions (getWeeksList (some (86400 * 0)) (some (86400 * 20))).1
        (86400 * 0) (86400 * 20 + 86399) ∧
      (∀ w ∈ (getWeeksList (some (86400 * 0)) (some (86400 * 20))).1,
        w.2 - w.1 < 7 * 86400) ∧
      (∀ d : Int, 0 ≤ d → d ≤ 20 →
        ((getWeeksList (some (86400 * 0)) (some (86400 * 20))).1.countP
          (fun w => decide (w.1 ≤ 86400 * d ∧ 86400 * d + 86399 ≤ w.2))) = 1)) :=
  ⟨by norm_num, getWeeksList_aligned_partition 0 20 (by norm_num)⟩

/-- C1 counterexample: for genuine ISO timestamps (with a time-of-day part)
the claim is false.  start = day 0 at 08:00 (= 28800 s), end = day 19 at 09:00
(= 1674000 s) spans 20 calendar days with `end ≥ start`, yet `getWeeksList`
returns the single window `(start, end)` (the `secondstoprocess > 0` branch
fires before the week split), which spans far more than 7 calendar days. -/
theorem getWeeksList_subday_breaks_week_cap :
    (getWeeksList (some 28800) (some 1674000)).1 = [(28800, 1674000)] ∧
    ∃ w ∈ (getWeeksList (some 28800) (some 1674000)).1,
      7 * 86400 - 1 < w.2 - w.1 := by
  constructor
  · decide
  · decide

/-- C4: a date range of 1-6 calendar days (midnight-aligned inputs, end ≥
start) produces exactly one window, from the input start to 23:59:59 on the
end date. -/
theorem getWeeksList_shortRange (a b : Int) (h1 : a ≤ b) (h2 : b ≤ a + 5) :
    (getWeeksList (some (86400 * a)) (some (86400 * b))).1
      = [(86400 * a, 86400 * b + 86399)] := by
  have hL := weeksCore_aligned a b h1
  rw [if_pos (by omega : b - a + 1 < 7)] at hL
  exact hL

/-- C4 witness: the 3-day range `[day 0, day 2]` gives the single window
ending at 23:59:59 of day 2. -/
theorem getWeeksList_shortRange_witness :
    (0 : Int) ≤ 2 ∧ (2 : Int) ≤ 0 + 5 ∧
    (getWeeksList (some (86400 * 0)) (some (86400 * 2))).1
      = [(86400 * 0, 86400 * 2 + 86399)] :=
  ⟨by norm_num, by norm_num, getWeeksList_shortRange 0 2 (by norm_num) (by norm_num)⟩

deriving instance DecidableEq for Except

/-- Python strings are modelled as their character lists (the `String` API
itself is not kernel-reducible, character lists are). -/
abbrev PyStr := List Char

/-- Exceptions that the pipeline can raise, by raising site. -/
inductive PyError
  | noData      -- polars NoDataError: read_csv on empty bytes (raise_if_empty default)
  | typeErr     -- TypeError: BytesIO(None) when getsacctData returned None
  | castErr     -- polars InvalidOperationError: strict cast of a non-numeric MaxRSS
  | concatEmpty -- ValueError: pl.concat([]) on an empty list of frames (line 195)
  | parseErr    -- ValueError: datetime.fromisoformat outside a try (lines 202-203)
  deriving DecidableEq

/-- One data row of the sacct output as typed by the `schema_overrides` of
`pl.read_csv` (lines 145-153): the `None`/`Unknown` tokens and empty fields
are null (`none`). -/
structure RawRecord where
  jobID : Option PyStr
  start : Option Int
  user : Option PyStr
  account : Option PyStr
  cpuTimeRaw : Option Int
  maxRSS : Option PyStr
  allocCPUs : Option Int
  deriving DecidableEq

/-- Outcome of one `subprocess.run(sacct_command, capture_output=True)`:
exit status plus captured stdout.  `stdout = none` is empty stdout (zero
bytes, no header); `stdout = some rows` is a well-formed header line plus
`rows` data lines. -/
structure SacctResult where
  returncode : Int
  stdout : Option (List RawRecord)
  deriving DecidableEq

/-- The external sacct command, as an oracle from the requested
(starttime, endtime) to the process outcome. -/
def SacctEnv := Int → Int → SacctResult

/-- Result of `getsacctData`: the returned value (`data = none` models the
bare `return` of Python `None`), the subprocess invocations actually made,
and the log messages. -/
structure FetchOut where
  data : Option (Option (List RawRecord))
  calls : List (Int × Int)
  logs : List LogMsg

/-- `getsacctData` (lines 62-123): refuse ranges of more than 7 days (guard
for the accounting DB) or of no days at all, without invoking the command;
otherwise invoke it once and return its stdout regardless of exit status. -/
def getsacctData (env : SacctEnv) (day_start day_end : Int) : FetchOut :=
  let daystoprocess := (day_end - day_start).fdiv 86400 + 1
  if 7 < daystoprocess then
    { data := none, calls := [], logs := [LogMsg.tryingCall, LogMsg.rangeTooLarge] }
  else if daystoprocess ≤ 0 then
    { data := none, calls := [], logs := [LogMsg.tryingCall, LogMsg.noRange] }
  else
    { data := some (env day_start day_end).stdout,
      calls := [(day_start, day_end)],
      logs := [LogMsg.tryingCall] }

/-- `pl.read_csv(BytesIO(b), ...)` (lines 145-153): `BytesIO(None)` raises
TypeError; empty bytes raise NoDataError (polars' `raise_if_empty` default is
true); otherwise the typed rows (header-only input gives zero rows). -/
def read_csv (b : Option (Option (List RawRecord))) : Except PyError (List RawRecord) :=
  match b with
  | none => .error .typeErr
  | some none => .error .noData
  | some (some rows) => .ok rows

/-- Accumulating decimal parse of digit characters; `none` on a non-digit. -/
def digitsToNatAux : List Char → Nat → Option Nat
  | [], acc => some acc
  | c :: cs, acc =>
    if c.isDigit then digitsToNatAux cs (acc * 10 + (c.toNat - 48)) else none

/-- Decimal integer parse of a character list (`none` on empty or
non-numeric input).  This models the strict polars cast of an integer-valued
string to Float64 followed by the Int64 cast of line 168; the Float64
round-trip is exact at the magnitudes sacct reports and is modelled as exact
integer arithmetic. -/
def parseIntChars : PyStr → Option Int
  | [] => none
  | '-' :: cs =>
    match cs with
    | [] => none
    | _ => (digitsToNatAux cs 0).map (fun n => -(n : Int))
  | s => (digitsToNatAux s 0).map (fun n => (n : Int))

/-- Python `str.endswith` for a single-character suffix. -/
def endsWithChar (s : PyStr) (c : Char) : Bool := s.getLast? == some c

/-- The regex replace `[KMG]$` of line 165: drop a trailing K, M or G. -/
def stripKMG (s : PyStr) : PyStr :=
  if endsWithChar s 'K' || endsWithChar s 'M' || endsWithChar s 'G' then s.dropLast else s

/-- The multiplier when/otherwise chain (lines 156-161), evaluated on the raw
MaxRSS value (the suffix is dropped only inside the memorybytes expression,
as the comment on line 167 notes). -/
def rssMultiplier (s : PyStr) : Int :=
  if endsWithChar s 'K' then 1000
  else if endsWithChar s 'M' then 1000000
  else if endsWithChar s 'G' then 1000000000
  else 1

/-- The memorybytes derivation (lines 155-169) for one MaxRSS cell: strip a
trailing K/M/G, strict-cast the remainder, multiply by the suffix multiplier.
A null MaxRSS propagates to a null cell (`some none`); a non-numeric
remainder raises (the outer `none` models the strict-cast error). -/
def memoryBytes (maxRSS : Option PyStr) : Option (Option Int) :=
  match maxRSS with
  | none => some none
  | some s =>
    match parseIntChars (stripKMG s) with
    | none => none
    | some n => some (some (n * rssMultiplier s))

/-- An IEEE Float64 value as produced by polars' column arithmetic, modelled
with exact rationals for finite values plus the non-finite values that
division by zero produces (rounding is monotone, so order- and
nullability-level properties are unaffected by this idealisation). -/
inductive FVal
  | num (q : ℚ)
  | inf
  | negInf
  | nan
  deriving DecidableEq

/-- Float64 division semantics for integer operands (polars casts the Int64
operands of `/` to Float64): n / 0 is ±inf for n ≠ 0 and NaN for 0 / 0. -/
def fdivF (a b : Int) : FVal :=
  if b = 0 then (if a = 0 then FVal.nan else if 0 < a then FVal.inf else FVal.negInf)
  else FVal.num ((a : ℚ) / (b : ℚ))

/-- Multiplication by a positive finite constant (the `* 1.0e-9` of line 181). -/
def fvalScale (v : FVal) (c : ℚ) : FVal :=
  match v with
  | FVal.num q => FVal.num (q * c)
  | FVal.inf => FVal.inf
  | FVal.negInf => FVal.negInf
  | FVal.nan => FVal.nan

/-- The MemPerCore column (lines 178-183): memorybytes / AllocCPUS * 1.0e-9,
null when either operand is null. -/
def memPerCoreVal (mb ac : Option Int) : Option FVal :=
  match mb, ac with
  | some m, some c => some (fvalScale (fdivF m c) (1 / 1000000000))
  | _, _ => none

/-- A normalized row after lines 155-186, fields in the reordered column
order of line 186: JobID, Start, Account, User, CPUTimeRAW, CoreH, MaxRSS,
memorybytes, AllocCPUS, MemPerCore. -/
structure NormRec where
  jobID : Option PyStr
  start : Option Int
  account : Option PyStr
  user : Option PyStr
  cpuTimeRaw : Option Int
  coreH : Option ℚ
  maxRSS : Option PyStr
  memorybytes : Option Int
  allocCPUs : Option Int
  memPerCore : Option FVal
  deriving DecidableEq

/-- Normalization of one raw row (lines 155-186); the strict cast inside the
memorybytes expression is the only failing step.  CoreH is
CPUTimeRAW / 60.0 / 60.0 (line 174), null propagating. -/
def normalizeRec (r : RawRecord) : Except PyError NormRec :=
  match memoryBytes r.maxRSS with
  | none => .error .castErr
  | some mb =>
    .ok { jobID := r.jobID
          start := r.start
          account := r.account
          user := r.user
          cpuTimeRaw := r.cpuTimeRaw
          coreH := r.cpuTimeRaw.map (fun n => (n : ℚ) / 60 / 60)
          maxRSS := r.maxRSS
          memorybytes := mb
          allocCPUs := r.allocCPUs
          memPerCore := memPerCoreVal mb r.allocCPUs }

/-- Line 189: keep only rows whose MemPerCore is not null (drops e.g. the
job-allocation rows whose MaxRSS was empty). -/
def filterNonNull (l : List NormRec) : List NormRec :=
  l.filter (fun r => r.memPerCore.isSome)

/-- The year component of Python `datetime._ord2ymd`: the proleptic Gregorian
year containing ordinal day `o` (0001-01-01 is ordinal 1). -/
def yearOfOrdinal (o : Int) : Int :=
  let n := o - 1
  let n400 := n.fdiv 146097
  let r400 := n.emod 146097
  let n100 := r400.fdiv 36524
  let r100 := r400.emod 36524
  let n4 := r100.fdiv 1461
  let r4 := r100.emod 1461
  let n1 := r4.fdiv 365
  if n1 = 4 ∨ n100 = 4 then n400 * 400 + n100 * 100 + n4 * 4 + n1
  else n400 * 400 + n100 * 100 + n4 * 4 + n1 + 1

/-- Python `datetime._days_before_year`. -/
def daysBeforeYear (y : Int) : Int :=
  let z := y - 1
  365 * z + z.fdiv 4 - z.fdiv 100 + z.fdiv 400

/-- Python `datetime._isoweek1monday`: ordinal of the Monday starting ISO
week 1 of year `y`. -/
def isoWeek1Monday (y : Int) : Int :=
  let firstday := daysBeforeYear y + 1
  let firstweekday := (firstday + 6).emod 7
  let week1monday := firstday - firstweekday
  if 3 < firstweekday then week1monday + 7 else week1monday

/-- Python `datetime.isocalendar()` on an ordinal day: (ISO year, ISO week,
ISO weekday). -/
def isocalendarOrd (o : Int) : Int × Int × Int :=
  let year := yearOfOrdinal o
  let w1 := isoWeek1Monday year
  let week := (o - w1).fdiv 7
  let day := (o - w1).emod 7
  if week < 0 then
    let year2 := year - 1
    let w1b := isoWeek1Monday year2
    (year2, (o - w1b).fdiv 7 + 1, (o - w1b).emod 7 + 1)
  else if 52 ≤ week ∧ isoWeek1Monday (year + 1) ≤ o then
    (year + 1, 1, day + 1)
  else
    (year, week + 1, day + 1)

/-- `isocalendar` on a timestamp: day 0 of the epoch is ordinal day 1. -/
def isocalendar (t : Int) : Int × Int × Int := isocalendarOrd (t.fdiv 86400 + 1)

/-- The cache key `(year, week)` of lines 133-135. -/
def isoKey (t : Int) : Int × Int := ((isocalendar t).1, (isocalendar t).2.1)

/-- The on-disk cache directory `./cache/{year}-{week}.parquet`, as a map
from key to the stored table (parquet round-trips a table exactly, spec §8). -/
def Cache := Int × Int → Option (List NormRec)

/-- Observable outcome of one loop iteration: the week's table (or the
exception), the cache state afterwards, the sacct invocations made, logs. -/
structure StepOut where
  result : Except PyError (List NormRec)
  cache : Cache
  calls : List (Int × Int)
  logs : List LogMsg

/-- The fetch-and-normalize branch of the loop body (lines 141-191). -/
def fetchWeek (env : SacctEnv) (cache : Cache) (w : Int × Int) : StepOut :=
  let f := getsacctData env w.1 w.2
  match read_csv f.data with
  | .error e =>
    { result := .error e, cache := cache, calls := f.calls,
      logs := [LogMsg.preparingDf] ++ f.logs ++ [LogMsg.startBuilding] }
  | .ok rows =>
    match rows.mapM normalizeRec with
    | .error e =>
      { result := .error e, cache := cache, calls := f.calls,
        logs := [LogMsg.preparingDf] ++ f.logs ++ [LogMsg.startBuilding] }
    | .ok nrows =>
      let wdf := filterNonNull nrows
      { result := .ok wdf,
        cache := fun k => if k = isoKey w.1 then some wdf else cache k,
        calls := f.calls,
        logs := [LogMsg.preparingDf] ++ f.logs ++ [LogMsg.startBuilding] }

/-- One iteration of the week loop (lines 131-192): a cache hit (file exists
and not `forceRead`) returns the stored table and skips the fetch entirely;
otherwise fetch, normalize, filter, and (over)write the cache entry. -/
def processWeek (env : SacctEnv) (forceRead : Bool) (cache : Cache) (w : Int × Int) :
    StepOut :=
  match cache (isoKey w.1), forceRead with
  | some df, false =>
    { result := .ok df, cache := cache, calls := [],
      logs := [LogMsg.preparingDf, LogMsg.foundCache] }
  | _, _ => fetchWeek env cache w

/-- Observable outcome of the whole loop. -/
structure LoopOut where
  result : Except PyError (List (List NormRec))
  cache : Cache
  calls : List (Int × Int)
  logs : List LogMsg

/-- The week loop over all windows; an exception in one iteration aborts the
remaining iterations (Python propagates it out of `readDataFrame`). -/
def processWeeks (env : SacctEnv) (forceRead : Bool) : Cache → List (Int × Int) → LoopOut
  | cache, [] => { result := .ok [], cache := cache, calls := [], logs := [] }
  | cache, w :: ws =>
    let s := processWeek env forceRead cache w
    match s.result with
    | .error e =>
      { result := .error e, cache := s.cache, calls := s.calls, logs := s.logs }
    | .ok df =>
      let rest := processWeeks env forceRead s.cache ws
      { result := rest.result.map (fun dfs => df :: dfs),
        cache := rest.cache,
        calls := s.calls ++ rest.calls,
        logs := s.logs ++ rest.logs }

/-- `alldfs.unique(subset="JobID", keep="first")` (line 199): keep the first
row seen for each JobID value (null JobIDs compare equal, as in polars). -/
def dedupFirst (seen : List (Option PyStr)) : List NormRec → List NormRec
  | [] => []
  | r :: rs =>
    if r.jobID ∈ seen then dedupFirst seen rs
    else r :: dedupFirst (r.jobID :: seen) rs

/-- polars' ascending order on the MemPerCore column: -inf < finite < inf,
NaNs sort last among the floats. -/
def fvalLe : FVal → FVal → Bool
  | FVal.nan, FVal.nan => true
  | _, FVal.nan => true
  | FVal.nan, _ => false
  | FVal.inf, FVal.inf => true
  | _, FVal.inf => true
  | FVal.inf, _ => false
  | FVal.negInf, _ => true
  | _, FVal.negInf => false
  | FVal.num a, FVal.num b => a ≤ b

/-- Null MemPerCore cells sort first (polars' `nulls_last=False` default). -/
def memOptLe (a b : Option FVal) : Bool :=
  match a, b with
  | none, _ => true
  | some _, none => false
  | some x, some y => fvalLe x y

/-- Row order used by `alldfs.sort("MemPerCore", descending=False)`. -/
def memLe (a b : NormRec) : Prop := memOptLe a.memPerCore b.memPerCore = true

instance : DecidableRel memLe := fun _ _ => inferInstanceAs (Decidable (_ = true))

/-- Lines 195-206 minus the period bookkeeping: concatenate the per-week
tables, on any duplicated JobID keep only the first occurrence (logging a
warning), then sort ascending by MemPerCore. -/
def mergeWeekDFs (dfs : List (List NormRec)) : List NormRec × List LogMsg :=
  let all := dfs.flatten
  if (all.map (fun r => r.jobID)).Nodup then
    (List.insertionSort memLe all, [])
  else
    (List.insertionSort memLe (dedupFirst [] all), [LogMsg.duplicates])

/-- Observable outcome of `readDataFrame`. -/
structure RDFOut where
  result : Except PyError (List NormRec × Int)
  cache : Cache
  calls : List (Int × Int)
  logs : List LogMsg

/-- `readDataFrame` (lines 126-208).  The returned pair is
`(alldfs, period)` with `period = day_end - day_start` in seconds.
`pl.concat` of an empty list of frames raises ValueError (`concatEmpty`);
the `fromisoformat` calls of lines 202-203 sit outside any try and would
raise for unparseable dates (`parseErr`), though that point is reached only
when at least one window existed.  The sort of line 206 happens after the
period computation; the two do not interact, so they are composed here. -/
def readDataFrame (env : SacctEnv) (cache : Cache) (startdate enddate : Option Int)
    (forceRead : Bool) : RDFOut :=
  let wl := getWeeksList startdate enddate
  let lp := processWeeks env forceRead cache wl.1
  let logs0 := wl.2 ++ [LogMsg.startReading] ++ lp.logs
  match lp.result with
  | .error e =>
    { result := .error e, cache := lp.cache, calls := lp.calls, logs := logs0 }
  | .ok dfs =>
    if dfs.isEmpty then
      { result := .error .concatEmpty, cache := lp.cache, calls := lp.calls,
        logs := logs0 ++ [LogMsg.merging] }
    else
      let m := mergeWeekDFs dfs
      match startdate, enddate with
      | some ds, some de =>
        { result := .ok (m.1, de - ds), cache := lp.cache, calls := lp.calls,
          logs := logs0 ++ [LogMsg.merging] ++ m.2 }
      | _, _ =>
        { result := .error .parseErr, cache := lp.cache, calls := lp.calls,
          logs := logs0 ++ [LogMsg.merging] ++ m.2 }

/-- C6: a fetch window spanning more than 7 days (`daystoprocess > 7`) or no
days at all (`daystoprocess ≤ 0`) is refused: the external command is not
invoked, the problem is logged, and no data is returned. -/
theorem getsacctData_refuses (env : SacctEnv) (ds de : Int)
    (h : 7 < (de - ds).fdiv 86400 + 1 ∨ (de - ds).fdiv 86400 + 1 ≤ 0) :
    (getsacctData env ds de).data = none ∧
    (getsacctData env ds de).calls = [] ∧
    (LogMsg.rangeTooLarge ∈ (getsacctData env ds de).logs ∨
      LogMsg.noRange ∈ (getsacctData env ds de).logs) := by
  simp only [getsacctData]
  rcases h with h | h
  · rw [if_pos h]
    exact ⟨rfl, rfl, Or.inl (by simp)⟩
  · rw [if_neg (by omega), if_pos h]
    exact ⟨rfl, rfl, Or.inr (by simp)⟩

/-- An external environment whose sacct invocation always fails with exit 1
and empty stdout. -/
def envEmptyFail : SacctEnv := fun _ _ => { returncode := 1, stdout := none }

/-- An external environment whose sacct invocation exits 1 but still prints
the header line (a zero-row table). -/
def envHeaderOnly : SacctEnv := fun _ _ => { returncode := 1, stdout := some [] }

/-- The empty cache directory. -/
def emptyCache : Cache := fun _ => none

/-- C6 witness: the 8-day window day 0 .. day 7 is refused without a call. -/
theorem getsacctData_refuses_witness :
    (7 < ((86400 * 7 : Int) - 0).fdiv 86400 + 1 ∨
      ((86400 * 7 : Int) - 0).fdiv 86400 + 1 ≤ 0) ∧
    ((getsacctData envEmptyFail 0 (86400 * 7)).data = none ∧
      (getsacctData envEmptyFail 0 (86400 * 7)).calls = [] ∧
      (LogMsg.rangeTooLarge ∈ (getsacctData envEmptyFail 0 (86400 * 7)).logs ∨
        LogMsg.noRange ∈ (getsacctData envEmptyFail 0 (86400 * 7)).logs)) :=
  ⟨by decide, getsacctData_refuses envEmptyFail 0 (86400 * 7) (by decide)⟩

/-- C2 counterexample: with an empty cache and a failing sacct (exit 1,
empty stdout), `readDataFrame` on the one-day range day 0 raises NoDataError
from `pl.read_csv` instead of propagating a zero-row table. -/
theorem readDataFrame_emptyStdout_raises :
    (readDataFrame envEmptyFail emptyCache (some 0) (some 0) false).result
      = Except.error PyError.noData := by decide

/-- C2 (amended): on a cache miss, a failing external command is tolerated by
the fetch step itself - stdout is returned and parsed regardless of exit
status, and header-only stdout propagates as a zero-row normalized table that
is cached - but EMPTY stdout makes `pl.read_csv` raise NoDataError
(`raise_if_empty` default), which propagates as an exception, not as a
zero-row table. -/
theorem fetchFailure_behavior (env : SacctEnv) (cache : Cache) (w : Int × Int) (rc : Int)
    (hs1 : 0 < (w.2 - w.1).fdiv 86400 + 1) (hs2 : (w.2 - w.1).fdiv 86400 + 1 ≤ 7)
    (hmiss : cache (isoKey w.1) = none) :
    (env w.1 w.2 = { returncode := rc, stdout := some [] } →
      processWeek env false cache w =
        { result := .ok [],
          cache := fun k => if k = isoKey w.1 then some [] else cache k,
          calls := [(w.1, w.2)],
          logs := [LogMsg.preparingDf, LogMsg.tryingCall, LogMsg.startBuilding] }) ∧
    (env w.1 w.2 = { returncode := rc, stdout := none } →
      processWeek env false cache w =
        { result := .error PyError.noData, cache := cache, calls := [(w.1, w.2)],
          logs := [LogMsg.preparingDf, LogMsg.tryingCall, LogMsg.startBuilding] }) := by
  have hfetch : getsacctData env w.1 w.2 =
      { data := some (env w.1 w.2).stdout, calls := [(w.1, w.2)],
        logs := [LogMsg.tryingCall] } := by
    simp only [getsacctData]
    rw [if_neg (by omega), if_neg (by omega)]
  constructor
  · intro henv
    simp only [processWeek, hmiss]
    simp only [fetchWeek, hfetch, henv, read_csv]
    rfl
  · intro henv
    simp only [processWeek, hmiss]
    simp only [fetchWeek, hfetch, henv, read_csv]
    rfl

/-- C2 witness: both amended behaviours at the concrete window day 0,
header-only failing environment (the zero-row tolerant case). -/
theorem fetchFailure_behavior_witness :
    processWeek envHeaderOnly false emptyCache (0, 86399) =
      { result := .ok [],
        cache := fun k => if k = isoKey 0 then some [] else emptyCache k,
        calls := [(0, 86399)],
        logs := [LogMsg.preparingDf, LogMsg.tryingCall, LogMsg.startBuilding] } :=
  (fetchFailure_behavior envHeaderOnly emptyCache (0, 86399) 1
    (by decide) (by decide) rfl).1 rfl

/-- C3 counterexample: for end < start (day 1 down to day 0) the pipeline
raises: `getWeeksList` returns no windows, and `pl.concat` then raises
ValueError on the empty list of frames, so `readDataFrame` does not return
an empty result. -/
theorem readDataFrame_invalidRange_raises :
    (readDataFrame envEmptyFail emptyCache (some 86400) (some 0) false).result
      = Except.error PyError.concatEmpty := by decide

/-- C3 (amended): for unparseable dates or end < start, `getWeeksList` itself
degrades gracefully - it logs (a warning for bad input, an info for the empty
interval) and returns no windows, and no sacct call is ever made - but
`readDataFrame` is not exception-free: `pl.concat([])` raises ValueError, so
invalid ranges are fatal to `readDataFrame`. -/
theorem invalidRange_behavior (env : SacctEnv) (cache : Cache) (f : Bool)
    (sd ed : Option Int)
    (h : sd = none ∨ ed = none ∨ ∃ x y, sd = some x ∧ ed = some y ∧ y < x) :
    (getWeeksList sd ed).1 = [] ∧
    LogMsg.intervalEmpty ∈ (getWeeksList sd ed).2 ∧
    (readDataFrame env cache sd ed f).result = Except.error PyError.concatEmpty ∧
    (readDataFrame env cache sd ed f).calls = [] := by
  have hempty : (getWeeksList sd ed).1 = [] ∧
      LogMsg.intervalEmpty ∈ (getWeeksList sd ed).2 := by
    rcases h with rfl | h
    · exact ⟨rfl, by simp [getWeeksList]⟩
    · rcases h with rfl | h
      · cases sd
        · exact ⟨rfl, by simp [getWeeksList]⟩
        · exact ⟨rfl, by simp [getWeeksList]⟩
      · obtain ⟨x, y, rfl, rfl, hxy⟩ := h
        have hd : (y - x).fdiv 86400 + 1 ≤ 0 := by
          rw [Int.fdiv_eq_ediv _ (by norm_num)]
          omega
        simp only [getWeeksList, weeksCore]
        rw [if_pos hd]
        exact ⟨rfl, by simp⟩
  refine ⟨hempty.1, hempty.2, ?_, ?_⟩ <;>
    · simp only [readDataFrame, hempty.1, processWeeks]
      rfl

/-- C3 witness: the amended behaviour at a concrete unparseable start date. -/
theorem invalidRange_behavior_witness :
    (getWeeksList none (some 5)).1 = [] ∧
    LogMsg.intervalEmpty ∈ (getWeeksList none (some 5)).2 ∧
    (readDataFrame envHeaderOnly emptyCache none (some 5) true).result
      = Except.error PyError.concatEmpty ∧
    (readDataFrame envHeaderOnly emptyCache none (some 5) true).calls = [] :=
  invalidRange_behavior envHeaderOnly emptyCache true none (some 5) (Or.inl rfl)

/-- C5: cache behaviour of the week loop body.  With `forceRead = false` a
cache file for the window's (ISO year, ISO week) key short-circuits the
iteration: the stored table is returned unchanged, the fetcher is never
invoked and the cache is untouched, so identical inputs never re-fetch.
With `forceRead = true` the iteration always re-fetches (exactly one sacct
call), re-normalizes, and overwrites the stored entry with the freshly
normalized, filtered table. -/
theorem weekCache_pure (env : SacctEnv) (cache : Cache) (w : Int × Int) :
    (∀ tbl, cache (isoKey w.1) = some tbl →
      processWeek env false cache w =
        { result := .ok tbl, cache := cache, calls := [],
          logs := [LogMsg.preparingDf, LogMsg.foundCache] }) ∧
    (∀ rows rc nrows,
      0 < (w.2 - w.1).fdiv 86400 + 1 → (w.2 - w.1).fdiv 86400 + 1 ≤ 7 →
      env w.1 w.2 = { returncode := rc, stdout := some rows } →
      rows.mapM normalizeRec = Except.ok nrows →
      processWeek env true cache w =
        { result := .ok (filterNonNull nrows),
          cache := fun k => if k = isoKey w.1 then some (filterNonNull nrows) else cache k,
          calls := [(w.1, w.2)],
          logs := [LogMsg.preparingDf, LogMsg.tryingCall, LogMsg.startBuilding] }) := by
  constructor
  · intro tbl hhit
    simp only [processWeek, hhit]
  · intro rows rc nrows hs1 hs2 henv hnorm
    have hfetch : getsacctData env w.1 w.2 =
        { data := some (env w.1 w.2).stdout, calls := [(w.1, w.2)],
          logs := [LogMsg.tryingCall] } := by
      simp only [getsacctData]
      rw [if_neg (by omega), if_neg (by omega)]
    cases hck : cache (isoKey w.1) <;>
      · simp only [processWeek, hck]
        simp only [fetchWeek, hfetch, henv, read_csv, hnorm]
        rfl

/-- A cache that already holds a (zero-row) table for the week of day 0. -/
def cacheWithDay0 : Cache := fun k => if k = isoKey 0 then some [] else none

/-- C5 witness: both cache behaviours at the concrete window day 0. -/
theorem weekCache_pure_witness :
    (processWeek envHeaderOnly false cacheWithDay0 (0, 86399) =
      { result := .ok [], cache := cacheWithDay0, calls := [],
        logs := [LogMsg.preparingDf, LogMsg.foundCache] }) ∧
    (processWeek envHeaderOnly true cacheWithDay0 (0, 86399) =
      { result := .ok (filterNonNull []),
        cache := fun k => if k = isoKey 0 then some (filterNonNull []) else cacheWithDay0 k,
        calls := [(0, 86399)],
        logs := [LogMsg.preparingDf, LogMsg.tryingCall, LogMsg.startBuilding] }) :=
  ⟨(weekCache_pure envHeaderOnly cacheWithDay0 (0, 86399)).1 [] (by decide),
   (weekCache_pure envHeaderOnly cacheWithDay0 (0, 86399)).2 [] 1 []
     (by decide) (by decide) rfl rfl⟩

/-- C7: the memorybytes derivation strips a trailing K/M/G suffix and
multiplies the numeric remainder by 1000 / 1000000 / 1000000000 respectively
(no suffix: by 1), with null propagating; in particular the spec's four
examples hold (decimal, not binary, prefixes). -/
theorem memoryBytes_spec :
    memoryBytes (some "46908K".data) = some (some 46908000) ∧
    memoryBytes (some "1299472K".data) = some (some 1299472000) ∧
    memoryBytes none = some none ∧
    memoryBytes (some "212".data) = some (some 212) ∧
    (∀ s n, endsWithChar s 'K' = true → parseIntChars s.dropLast = some n →
      memoryBytes (some s) = some (some (n * 1000))) ∧
    (∀ s n, endsWithChar s 'K' = false → endsWithChar s 'M' = true →
      parseIntChars s.dropLast = some n →
      memoryBytes (some s) = some (some (n * 1000000))) ∧
    (∀ s n, endsWithChar s 'K' = false → endsWithChar s 'M' = false →
      endsWithChar s 'G' = true → parseIntChars s.dropLast = some n →
      memoryBytes (some s) = some (some (n * 1000000000))) ∧
    (∀ s n, endsWithChar s 'K' = false → endsWithChar s 'M' = false →
      endsWithChar s 'G' = false → parseIntChars s = some n →
      memoryBytes (some s) = some (some (n * 1))) := by
  refine ⟨by decide, by decide, rfl, by decide, ?_, ?_, ?_, ?_⟩
  · intro s n hK hp
    simp [memoryBytes, stripKMG, rssMultiplier, hK, hp]
  · intro s n hK hM hp
    simp [memoryBytes, stripKMG, rssMultiplier, hK, hM, hp]
  · intro s n hK hM hG hp
    simp [memoryBytes, stripKMG, rssMultiplier, hK, hM, hG, hp]
  · intro s n hK hM hG hp
    simp [memoryBytes, stripKMG, rssMultiplier, hK, hM, hG, hp]

/-- C7 witness: the generic M-suffix case evaluated at "12M". -/
theorem memoryBytes_spec_witness :
    memoryBytes (some "12M".data) = some (some (12 * 1000000)) :=
  memoryBytes_spec.2.2.2.2.2.1 "12M".data 12 (by decide) (by decide) (by decide)

theorem fvalLe_total (x y : FVal) : fvalLe x y = true ∨ fvalLe y x = true := by
  cases x <;> cases y <;> simp [fvalLe]
  exact le_total _ _

theorem fvalLe_trans :
    ∀ {x y z : FVal}, fvalLe x y = true → fvalLe y z = true → fvalLe x z = true := by
  intro x y z h1 h2
  cases x <;> cases y <;> cases z <;> simp_all [fvalLe]
  exact le_trans h1 h2

theorem memOptLe_total (a b : Option FVal) : memOptLe a b = true ∨ memOptLe b a = true := by
  cases a <;> cases b <;> simp [memOptLe]
  exact fvalLe_total _ _

theorem memOptLe_trans :
    ∀ {a b c : Option FVal}, memOptLe a b = true → memOptLe b c = true →
      memOptLe a c = true := by
  intro a b c h1 h2
  cases a <;> cases b <;> cases c <;> simp_all [memOptLe]
  exact fvalLe_trans h1 h2

instance : IsTotal NormRec memLe :=
  ⟨fun a b => memOptLe_total a.memPerCore b.memPerCore⟩

instance : IsTrans NormRec memLe :=
  ⟨fun _ _ _ h1 h2 => memOptLe_trans h1 h2⟩

theorem dedupFirst_mem :
    ∀ (l : List NormRec) (seen : List (Option PyStr)) (r : NormRec),
      r ∈ dedupFirst seen l → r ∈ l := by
  intro l
  induction l with
  | nil => intro seen r h; cases h
  | cons a tl ih =>
    intro seen r h
    simp only [dedupFirst] at h
    by_cases ha : a.jobID ∈ seen
    · rw [if_pos ha] at h
      exact List.mem_cons_of_mem a (ih seen r h)
    · rw [if_neg ha] at h
      rcases List.mem_cons.mp h with rfl | h
      · exact List.mem_cons_self _ _
      · exact List.mem_cons_of_mem _ (ih _ r h)

theorem dedupFirst_key_not_seen :
    ∀ (l : List NormRec) (seen : List (Option PyStr)) (r : NormRec),
      r ∈ dedupFirst seen l → r.jobID ∉ seen := by
  intro l
  induction l with
  | nil => intro seen r h; cases h
  | cons a tl ih =>
    intro seen r h
    simp only [dedupFirst] at h
    by_cases ha : a.jobID ∈ seen
    · rw [if_pos ha] at h
      exact ih seen r h
    · rw [if_neg ha] at h
      rcases List.mem_cons.mp h with rfl | h
      · exact ha
      · have := ih _ r h
        intro hc
        exact this (List.mem_cons_of_mem _ hc)

theorem dedupFirst_countP (j : Option PyStr) :
    ∀ (l : List NormRec) (seen : List (Option PyStr)),
      (dedupFirst seen l).countP (fun r => r.jobID == j)
        = if j ∈ seen then 0
          else if l.any (fun r => r.jobID == j) then 1 else 0 := by
  intro l
  induction l with
  | nil => intro seen; simp [dedupFirst]
  | cons a tl ih =>
    intro seen
    simp only [dedupFirst]
    by_cases ha : a.jobID ∈ seen
    · rw [if_pos ha, ih]
      by_cases hj : j ∈ seen
      · simp [hj]
      · have hne : ¬ (a.jobID == j) = true := by
          simp only [beq_iff_eq]
          intro hc
          exact hj (hc ▸ ha)
        simp [hj, List.any_cons, hne]
    · rw [if_neg ha]
      by_cases hk : a.jobID = j
      · subst hk
        rw [List.countP_cons_of_pos _ _ (by simp), ih]
        have hj : a.jobID ∉ seen := ha
        simp [hj, List.any_cons]
      · rw [List.countP_cons_of_neg _ _ (by simp [hk]), ih]
        have hmem : (j ∈ a.jobID :: seen) ↔ (j ∈ seen) := by
          simp only [List.mem_cons]
          constructor
          · rintro (h0 | h)
            · exact absurd h0.symm hk
            · exact h
          · exact Or.inr
        rw [if_congr hmem rfl rfl]
        by_cases hj : j ∈ seen
        · simp [hj]
        · have hne : ¬ (a.jobID == j) = true := by simp [hk]
          simp [hj, List.any_cons, hne]

theorem dedupFirst_find? (j : Option PyStr) :
    ∀ (l : List NormRec) (seen : List (Option PyStr)) (r : NormRec),
      j ∉ seen → r ∈ dedupFirst seen l → r.jobID = j →
      l.find? (fun x => x.jobID == j) = some r := by
  intro l
  induction l with
  | nil => intro seen r _ h; cases h
  | cons a tl ih =>
    intro seen r hj h hr
    simp only [dedupFirst] at h
    by_cases ha : a.jobID ∈ seen
    · rw [if_pos ha] at h
      have hne : (a.jobID == j) = false := by
        simp only [beq_eq_false_iff_ne, ne_eq]
        intro hc
        exact hj (hc ▸ ha)
      simp only [List.find?_cons, hne]
      exact ih seen r hj h hr
    · rw [if_neg ha] at h
      rcases List.mem_cons.mp h with rfl | h
      · simp only [List.find?_cons, show (r.jobID == j) = true by simp [hr]]
      · have hkey := dedupFirst_key_not_seen tl (a.jobID :: seen) r h
        have hne : (a.jobID == j) = false := by
          simp only [beq_eq_false_iff_ne, ne_eq]
          intro hc
          exact hkey (hr ▸ hc ▸ List.mem_cons_self _ _)
        simp only [List.find?_cons, hne]
        refine ih (a.jobID :: seen) r ?_ h hr
        intro hc
        rcases List.mem_cons.mp hc with h0 | hc
        · rw [h0] at hne
          simp at hne
        · exact hj hc

theorem countP_le_one_of_nodup_keys (j : Option PyStr) :
    ∀ l : List NormRec, (l.map (fun r => r.jobID)).Nodup →
      l.countP (fun r => r.jobID == j) ≤ 1 := by
  intro l
  induction l with
  | nil => intro _; simp
  | cons a tl ih =>
    intro hnd
    rw [List.map_cons, List.nodup_cons] at hnd
    by_cases hk : a.jobID = j
    · rw [List.countP_cons_of_pos _ _ (by simp [hk])]
      have hzero : tl.countP (fun r => r.jobID == j) = 0 := by
        rw [List.countP_eq_zero]
        intro r hr
        simp only [beq_iff_eq]
        intro hc
        apply hnd.1
        rw [hk, ← hc]
        exact List.mem_map_of_mem _ hr
      omega
    · rw [List.countP_cons_of_neg _ _ (by simp [hk])]
      exact ih hnd.2

theorem find?_eq_of_nodup_keys :
    ∀ (l : List NormRec), (l.map (fun r => r.jobID)).Nodup →
      ∀ r ∈ l, l.find? (fun x => x.jobID == r.jobID) = some r := by
  intro l
  induction l with
  | nil => intro _ r h; cases h
  | cons a tl ih =>
    intro hnd r hr
    rw [List.map_cons, List.nodup_cons] at hnd
    rcases List.mem_cons.mp hr with rfl | hr
    · simp only [List.find?_cons, show (r.jobID == r.jobID) = true by simp]
    · have hne : (a.jobID == r.jobID) = false := by
        simp only [beq_eq_false_iff_ne, ne_eq]
        intro hc
        exact hnd.1 (hc ▸ List.mem_map_of_mem _ hr)
      simp only [List.find?_cons, hne]
      exact ih hnd.2 r hr

/-- C8: the merger concatenates the per-week tables in order, keeps only the
first occurrence of any duplicated jobID (logging a warning exactly when
duplicates exist), and sorts ascending by MemPerCore: the output is sorted,
every jobID present in the input appears in exactly one output row, and the
surviving row for a jobID is the first-encountered row with that jobID in
concatenation order. -/
theorem merger_spec (dfs : List (List NormRec)) :
    List.Sorted memLe (mergeWeekDFs dfs).1 ∧
    (∀ j : Option PyStr, 0 < dfs.flatten.countP (fun r => r.jobID == j) →
      (mergeWeekDFs dfs).1.countP (fun r => r.jobID == j) = 1) ∧
    (∀ r ∈ (mergeWeekDFs dfs).1,
      dfs.flatten.find? (fun x => x.jobID == r.jobID) = some r) ∧
    ((dfs.flatten.map (fun r => r.jobID)).Nodup → (mergeWeekDFs dfs).2 = []) ∧
    (¬ (dfs.flatten.map (fun r => r.jobID)).Nodup →
      (mergeWeekDFs dfs).2 = [LogMsg.duplicates]) := by
  by_cases hnd : (dfs.flatten.map (fun r => r.jobID)).Nodup
  · have h1 : mergeWeekDFs dfs = (List.insertionSort memLe dfs.flatten, []) := by
      simp only [mergeWeekDFs, if_pos hnd]
    rw [h1]
    refine ⟨List.sorted_insertionSort memLe _, ?_, ?_, fun _ => rfl,
      fun hc => absurd hnd hc⟩
    · intro j hpos
      have hperm := List.perm_insertionSort memLe dfs.flatten
      rw [hperm.countP_eq]
      have hle := countP_le_one_of_nodup_keys j dfs.flatten hnd
      omega
    · intro r hr
      have hperm := List.perm_insertionSort memLe dfs.flatten
      exact find?_eq_of_nodup_keys dfs.flatten hnd r (hperm.mem_iff.mp hr)
  · have h1 : mergeWeekDFs dfs
        = (List.insertionSort memLe (dedupFirst [] dfs.flatten),
           [LogMsg.duplicates]) := by
      simp only [mergeWeekDFs, if_neg hnd]
    rw [h1]
    refine ⟨List.sorted_insertionSort memLe _, ?_, ?_, fun hc => absurd hc hnd,
      fun _ => rfl⟩
    · intro j hpos
      have hperm := List.perm_insertionSort memLe (dedupFirst [] dfs.flatten)
      rw [hperm.countP_eq, dedupFirst_countP j dfs.flatten []]
      have hany : dfs.flatten.any (fun r => r.jobID == j) = true := by
        rw [List.any_eq_true]
        obtain ⟨r, hr, hp⟩ := List.countP_pos_iff.mp hpos
        exact ⟨r, hr, hp⟩
      simp [hany]
    · intro r hr
      have hperm := List.perm_insertionSort memLe (dedupFirst [] dfs.flatten)
      exact dedupFirst_find? r.jobID dfs.flatten [] r (by simp)
        (hperm.mem_iff.mp hr) rfl

/-- The jobID shared by the two demo tables of the spec's merger example. -/
def jidDemo : PyStr := "17031184".data

/-- A demo normalized row with jobID 17031184 and MemPerCore 5. -/
def recA : NormRec :=
  { jobID := some jidDemo, start := some 0, account := some "acc".data,
    user := some "u".data, cpuTimeRaw := none, coreH := none,
    maxRSS := some "208K".data, memorybytes := some 208000,
    allocCPUs := some 1, memPerCore := some (FVal.num 5) }

/-- A second demo row with the same jobID and MemPerCore 3. -/
def recB : NormRec :=
  { recA with memorybytes := some 100, memPerCore := some (FVal.num 3) }

/-- C8 witness: two week tables sharing jobID "17031184" merge into a table
with exactly one row carrying that jobID. -/
theorem merger_spec_witness :
    (mergeWeekDFs [[recA], [recB]]).1.countP
      (fun r => r.jobID == some jidDemo) = 1 :=
  (merger_spec [[recA], [recB]]).2.1 (some jidDemo) (by decide)

/-- Cache invariant: no persisted table contains a null-MemPerCore row. -/
def cacheInv (c : Cache) : Prop :=
  ∀ k tbl, c k = some tbl → ∀ r ∈ tbl, r.memPerCore ≠ none

theorem filterNonNull_no_null (l : List NormRec) :
    ∀ r ∈ filterNonNull l, r.memPerCore ≠ none := by
  intro r hr
  obtain ⟨-, h2⟩ := List.mem_filter.mp hr
  intro hc
  rw [hc] at h2
  simp at h2

theorem fetchWeek_cases (env : SacctEnv) (cache : Cache) (w : Int × Int) :
    ((fetchWeek env cache w).cache = cache ∧
      ∀ df, (fetchWeek env cache w).result ≠ Except.ok df) ∨
    (∃ nrows, (fetchWeek env cache w).result = .ok (filterNonNull nrows) ∧
      (fetchWeek env cache w).cache
        = fun k => if k = isoKey w.1 then some (filterNonNull nrows) else cache k) := by
  cases hcsv : read_csv (getsacctData env w.1 w.2).data with
  | error e =>
    have hfw : fetchWeek env cache w =
        { result := .error e, cache := cache,
          calls := (getsacctData env w.1 w.2).calls,
          logs := [LogMsg.preparingDf] ++ (getsacctData env w.1 w.2).logs
            ++ [LogMsg.startBuilding] } := by
      simp only [fetchWeek, hcsv]
    rw [hfw]
    exact Or.inl ⟨rfl, fun df h => Except.noConfusion h⟩
  | ok rows =>
    cases hnorm : rows.mapM normalizeRec with
    | error e =>
      have hfw : fetchWeek env cache w =
          { result := .error e, cache := cache,
            calls := (getsacctData env w.1 w.2).calls,
            logs := [LogMsg.preparingDf] ++ (getsacctData env w.1 w.2).logs
              ++ [LogMsg.startBuilding] } := by
        simp only [fetchWeek, hcsv, hnorm]
      rw [hfw]
      exact Or.inl ⟨rfl, fun df h => Except.noConfusion h⟩
    | ok nrows =>
      have hfw : fetchWeek env cache w =
          { result := .ok (filterNonNull nrows),
            cache := fun k => if k = isoKey w.1 then some (filterNonNull nrows)
              else cache k,
            calls := (getsacctData env w.1 w.2).calls,
            logs := [LogMsg.preparingDf] ++ (getsacctData env w.1 w.2).logs
              ++ [LogMsg.startBuilding] } := by
        simp only [fetchWeek, hcsv, hnorm]
      rw [hfw]
      exact Or.inr ⟨nrows, rfl, rfl⟩

theorem processWeek_inv (env : SacctEnv) (f : Bool) (cache : Cache) (w : Int × Int)
    (hinv : cacheInv cache) :
    cacheInv (processWeek env f cache w).cache ∧
    (∀ df, (processWeek env f cache w).result = Except.ok df →
      ∀ r ∈ df, r.memPerCore ≠ none) := by
  have hmain : processWeek env f cache w = fetchWeek env cache w ∨
      ∃ tbl, cache (isoKey w.1) = some tbl ∧
        processWeek env f cache w =
          { result := .ok tbl, cache := cache, calls := [],
            logs := [LogMsg.preparingDf, LogMsg.foundCache] } := by
    cases hck : cache (isoKey w.1) with
    | none => exact Or.inl (by cases f <;> simp [processWeek, hck])
    | some tbl =>
      cases f with
      | false => exact Or.inr ⟨tbl, rfl, by simp [processWeek, hck]⟩
      | true => exact Or.inl (by simp [processWeek, hck])
  rcases hmain with heq | ⟨tbl, hck, heq⟩
  · rw [heq]
    rcases fetchWeek_cases env cache w with ⟨hc, hres⟩ | ⟨nrows, hres, hc⟩
    · rw [hc]
      exact ⟨hinv, fun df hdf => absurd hdf (hres df)⟩
    · rw [hres, hc]
      constructor
      · intro k ktbl hk r hr
        have hk2 : (if k = isoKey w.1 then some (filterNonNull nrows) else cache k)
            = some ktbl := hk
        by_cases hkey : k = isoKey w.1
        · rw [if_pos hkey] at hk2
          injection hk2 with hk2
          subst hk2
          exact filterNonNull_no_null nrows r hr
        · rw [if_neg hkey] at hk2
          exact hinv k ktbl hk2 r hr
      · intro df hdf
        injection hdf with hdf
        subst hdf
        exact filterNonNull_no_null nrows
  · rw [heq]
    refine ⟨hinv, fun df hdf => ?_⟩
    injection hdf with hdf
    subst hdf
    exact hinv _ _ hck

theorem processWeeks_inv (env : SacctEnv) (f : Bool) :
    ∀ (ws : List (Int × Int)) (cache : Cache), cacheInv cache →
      cacheInv (processWeeks env f cache ws).cache ∧
      (∀ dfs, (processWeeks env f cache ws).result = Except.ok dfs →
        ∀ df ∈ dfs, ∀ r ∈ df, r.memPerCore ≠ none) := by
  intro ws
  induction ws with
  | nil =>
    intro cache hinv
    refine ⟨hinv, fun dfs hdfs df hdf => ?_⟩
    injection hdfs with h
    subst h
    cases hdf
  | cons w tl ih =>
    intro cache hinv
    have hstep := processWeek_inv env f cache w hinv
    cases hres : (processWeek env f cache w).result with
    | error e =>
      have hpw : processWeeks env f cache (w :: tl) =
          { result := .error e, cache := (processWeek env f cache w).cache,
            calls := (processWeek env f cache w).calls,
            logs := (processWeek env f cache w).logs } := by
        simp only [processWeeks, hres]
      rw [hpw]
      exact ⟨hstep.1, fun dfs hdfs => Except.noConfusion hdfs⟩
    | ok df =>
      have hrest := ih (processWeek env f cache w).cache hstep.1
      have hpw : processWeeks env f cache (w :: tl) =
          { result := (processWeeks env f (processWeek env f cache w).cache tl).result.map
              (fun dfs => df :: dfs),
            cache := (processWeeks env f (processWeek env f cache w).cache tl).cache,
            calls := (processWeek env f cache w).calls
              ++ (processWeeks env f (processWeek env f cache w).cache tl).calls,
            logs := (processWeek env f cache w).logs
              ++ (processWeeks env f (processWeek env f cache w).cache tl).logs } := by
        simp only [processWeeks, hres]
      rw [hpw]
      refine ⟨hrest.1, fun dfs hdfs => ?_⟩
      cases hres2 : (processWeeks env f (processWeek env f cache w).cache tl).result with
      | error e =>
        rw [hres2] at hdfs
        exact Except.noConfusion hdfs
      | ok dfs2 =>
        rw [hres2] at hdfs
        injection hdfs with h
        subst h
        intro df2 hdf2
        rcases List.mem_cons.mp hdf2 with rfl | hdf2
        · exact hstep.2 df2 hres
        · exact hrest.2 dfs2 hres2 df2 hdf2

theorem mergeWeekDFs_mem (dfs : List (List NormRec)) (r : NormRec)
    (hr : r ∈ (mergeWeekDFs dfs).1) : r ∈ dfs.flatten := by
  by_cases hnd : (dfs.flatten.map (fun x => x.jobID)).Nodup
  · have h1 : (mergeWeekDFs dfs).1 = List.insertionSort memLe dfs.flatten := by
      simp only [mergeWeekDFs, if_pos hnd]
    rw [h1] at hr
    exact (List.perm_insertionSort memLe _).mem_iff.mp hr
  · have h1 : (mergeWeekDFs dfs).1
        = List.insertionSort memLe (dedupFirst [] dfs.flatten) := by
      simp only [mergeWeekDFs, if_neg hnd]
    rw [h1] at hr
    exact dedupFirst_mem _ [] r ((List.perm_insertionSort memLe _).mem_iff.mp hr)

/-- C9: the normalization order is normalize, then filter, then cache: if no
already-stored table contains a null-MemPerCore row, then after any
`readDataFrame` run the cache still contains no null-MemPerCore row (freshly
written entries are filtered before persisting, cache hits are returned
as stored), and the merged result table contains no null-MemPerCore row. -/
theorem cache_no_null_metric (env : SacctEnv) (cache : Cache) (sd ed : Option Int)
    (f : Bool) (hinv : cacheInv cache) :
    cacheInv (readDataFrame env cache sd ed f).cache ∧
    (∀ tbl p, (readDataFrame env cache sd ed f).result = Except.ok (tbl, p) →
      ∀ r ∈ tbl, r.memPerCore ≠ none) := by
  have hloop := processWeeks_inv env f (getWeeksList sd ed).1 cache hinv
  cases hres : (processWeeks env f cache (getWeeksList sd ed).1).result with
  | error e =>
    have hrd : readDataFrame env cache sd ed f =
        { result := .error e,
          cache := (processWeeks env f cache (getWeeksList sd ed).1).cache,
          calls := (processWeeks env f cache (getWeeksList sd ed).1).calls,
          logs := (getWeeksList sd ed).2 ++ [LogMsg.startReading]
            ++ (processWeeks env f cache (getWeeksList sd ed).1).logs } := by
      simp only [readDataFrame, hres]
    rw [hrd]
    exact ⟨hloop.1, fun tbl p h => Except.noConfusion h⟩
  | ok dfs =>
    have hcache : (readDataFrame env cache sd ed f).cache
        = (processWeeks env f cache (getWeeksList sd ed).1).cache := by
      simp only [readDataFrame, hres]
      by_cases hemp : dfs.isEmpty
      · rw [if_pos hemp]
      · rw [if_neg hemp]
        cases sd <;> cases ed <;> rfl
    refine ⟨hcache ▸ hloop.1, fun tbl p hok => ?_⟩
    by_cases hemp : dfs.isEmpty
    · have hthis : (readDataFrame env cache sd ed f).result = .error .concatEmpty := by
        simp only [readDataFrame, hres]
        rw [if_pos hemp]
      rw [hthis] at hok
      exact Except.noConfusion hok
    · cases sd with
      | none =>
        have hthis : (readDataFrame env cache none ed f).result = .error .parseErr := by
          simp only [readDataFrame, hres, if_neg hemp]
        rw [hthis] at hok
        exact Except.noConfusion hok
      | some ds =>
        cases ed with
        | none =>
          have hthis : (readDataFrame env cache (some ds) none f).result
              = .error .parseErr := by
            simp only [readDataFrame, hres, if_neg hemp]
          rw [hthis] at hok
          exact Except.noConfusion hok
        | some de =>
          have hthis : (readDataFrame env cache (some ds) (some de) f).result
              = .ok ((mergeWeekDFs dfs).1, de - ds) := by
            simp only [readDataFrame, hres, if_neg hemp]
          rw [hthis] at hok
          injection hok with hok
          have htbl : tbl = (mergeWeekDFs dfs).1 := by
            have := congrArg Prod.fst hok
            exact this.symm
          intro r hr
          have hmem := mergeWeekDFs_mem dfs r (htbl ▸ hr)
          obtain ⟨df, hdf, hrdf⟩ := List.mem_flatten.mp hmem
          exact hloop.2 dfs hres df hdf r hrdf

/-- C9 witness: the invariant holds starting from the empty cache on a
concrete one-day run with header-only sacct output. -/
theorem cache_no_null_metric_witness :
    cacheInv (readDataFrame envHeaderOnly emptyCache (some 0) (some 0) false).cache ∧
    (∀ tbl p,
      (readDataFrame envHeaderOnly emptyCache (some 0) (some 0) false).result
        = Except.ok (tbl, p) →
      ∀ r ∈ tbl, r.memPerCore ≠ none) :=
  cache_no_null_metric envHeaderOnly emptyCache (some 0) (some 0) false
    (fun _ _ h => Option.noConfusion h)

theorem processWeek_fetch_ok (env : SacctEnv) (cache : Cache) (w : Int × Int)
    (rows : List RawRecord) (rc : Int) (nrows : List NormRec)
    (hs1 : 0 < (w.2 - w.1).fdiv 86400 + 1) (hs2 : (w.2 - w.1).fdiv 86400 + 1 ≤ 7)
    (henv : env w.1 w.2 = { returncode := rc, stdout := some rows })
    (hnorm : rows.mapM normalizeRec = Except.ok nrows) :
    processWeek env true cache w =
      { result := .ok (filterNonNull nrows),
        cache := fun k => if k = isoKey w.1 then some (filterNonNull nrows) else cache k,
        calls := [(w.1, w.2)],
        logs := [LogMsg.preparingDf, LogMsg.tryingCall, LogMsg.startBuilding] } := by
  have hfetch : getsacctData env w.1 w.2 =
      { data := some (env w.1 w.2).stdout, calls := [(w.1, w.2)],
        logs := [LogMsg.tryingCall] } := by
    simp only [getsacctData]
    rw [if_neg (by omega), if_neg (by omega)]
  cases hck : cache (isoKey w.1) <;>
    · simp only [processWeek, hck]
      simp only [fetchWeek, hfetch, henv, read_csv, hnorm]
      rfl

/-- Whether a Float64 value is finite. -/
def FVal.isFinite : FVal → Bool
  | FVal.num _ => true
  | _ => false

/-- C10: the MemPerCore derivation divides by AllocCPUS with no guard against
zero: a record with non-null memorybytes and AllocCPUS = 0 gets a non-null,
non-finite MemPerCore (±inf, NaN for 0 bytes), therefore survives the
null-metric filter, is persisted to the cache on a fetch, and appears in the
merged table. -/
theorem memPerCore_no_zero_guard (r : RawRecord) (rec : NormRec) (m : Int)
    (hn : normalizeRec r = Except.ok rec)
    (hm : rec.memorybytes = some m)
    (hz : rec.allocCPUs = some 0) :
    (∃ v, rec.memPerCore = some v ∧ v.isFinite = false) ∧
    filterNonNull [rec] = [rec] ∧
    (mergeWeekDFs [[rec]]).1 = [rec] ∧
    (∀ (env : SacctEnv) (cache : Cache) (rc : Int) (w : Int × Int),
      0 < (w.2 - w.1).fdiv 86400 + 1 → (w.2 - w.1).fdiv 86400 + 1 ≤ 7 →
      env w.1 w.2 = { returncode := rc, stdout := some [r] } →
      processWeek env true cache w =
        { result := .ok [rec],
          cache := fun k => if k = isoKey w.1 then some [rec] else cache k,
          calls := [(w.1, w.2)],
          logs := [LogMsg.preparingDf, LogMsg.tryingCall, LogMsg.startBuilding] }) := by
  have hrec : ∃ mb, memoryBytes r.maxRSS = some mb ∧
      rec = { jobID := r.jobID, start := r.start, account := r.account,
              user := r.user, cpuTimeRaw := r.cpuTimeRaw,
              coreH := r.cpuTimeRaw.map (fun n => (n : ℚ) / 60 / 60),
              maxRSS := r.maxRSS, memorybytes := mb, allocCPUs := r.allocCPUs,
              memPerCore := memPerCoreVal mb r.allocCPUs } := by
    unfold normalizeRec at hn
    cases h0 : memoryBytes r.maxRSS with
    | none => rw [h0] at hn; exact Except.noConfusion hn
    | some mb =>
      rw [h0] at hn
      injection hn with hn
      exact ⟨mb, rfl, hn.symm⟩
  obtain ⟨mb, hmb, hreceq⟩ := hrec
  have hmb2 : mb = some m := by rw [hreceq] at hm; exact hm
  have hac : r.allocCPUs = some 0 := by rw [hreceq] at hz; exact hz
  have hmpc : rec.memPerCore = some (fvalScale (fdivF m 0) (1 / 1000000000)) := by
    rw [hreceq]
    simp only [memPerCoreVal, hmb2, hac]
  have hnonfin : ∃ v, rec.memPerCore = some v ∧ v.isFinite = false := by
    refine ⟨fvalScale (fdivF m 0) (1 / 1000000000), hmpc, ?_⟩
    unfold fdivF
    rw [if_pos rfl]
    by_cases h0 : m = 0
    · rw [if_pos h0]; rfl
    · rw [if_neg h0]
      by_cases h1 : 0 < m
      · rw [if_pos h1]; rfl
      · rw [if_neg h1]; rfl
  have hsome : rec.memPerCore.isSome = true := by rw [hmpc]; rfl
  have hfil : filterNonNull [rec] = [rec] := by
    simp [filterNonNull, hsome]
  refine ⟨hnonfin, hfil, ?_, ?_⟩
  · have hnd : (([[rec]] : List (List NormRec)).flatten.map
        (fun x => x.jobID)).Nodup := by simp
    simp only [mergeWeekDFs, if_pos hnd]
    simp [List.insertionSort]
  · intro env cache rc w hw1 hw2 henv
    have hnorm : List.mapM normalizeRec [r] = Except.ok [rec] := by
      simp [List.mapM, List.mapM.loop, hn, Except.bind]
    have := processWeek_fetch_ok env cache w [r] rc [rec] hw1 hw2 henv hnorm
    rw [this, hfil]

/-- A raw sacct row with a memory reading but zero allocated CPUs. -/
def rZero : RawRecord :=
  { jobID := some "17031184".data, start := some 0, user := some "u".data,
    account := some "acc".data, cpuTimeRaw := none,
    maxRSS := some "100K".data, allocCPUs := some 0 }

/-- The normalized form of `rZero`: MemPerCore is +inf, not null. -/
def recZero : NormRec :=
  { jobID := some "17031184".data, start := some 0, account := some "acc".data,
    user := some "u".data, cpuTimeRaw := none, coreH := none,
    maxRSS := some "100K".data, memorybytes := some 100000,
    allocCPUs := some 0, memPerCore := some FVal.inf }

/-- C10 witness: the zero-CPU record `rZero` normalizes to `recZero` with an
infinite, non-null MemPerCore that survives filtering and merging. -/
theorem memPerCore_no_zero_guard_witness :
    (∃ v, recZero.memPerCore = some v ∧ v.isFinite = false) ∧
    filterNonNull [recZero] = [recZero] ∧
    (mergeWeekDFs [[recZero]]).1 = [recZero] ∧
    (∀ (env : SacctEnv) (cache : Cache) (rc : Int) (w : Int × Int),
      0 < (w.2 - w.1).fdiv 86400 + 1 → (w.2 - w.1).fdiv 86400 + 1 ≤ 7 →
      env w.1 w.2 = { returncode := rc, stdout := some [rZero] } →
      processWeek env true cache w =
        { result := .ok [recZero],
          cache := fun k => if k = isoKey w.1 then some [recZero] else cache k,
          calls := [(w.1, w.2)],
          logs := [LogMsg.preparingDf, LogMsg.tryingCall, LogMsg.startBuilding] }) :=
  memPerCore_no_zero_guard rZero recZero 100000 (by decide) (by decide) (by decide)
